import Mathlib

/-!
Formal model of the email aggregation core of the Gmail-Email-Cleaner
repository (src/aggregator.py), shallowly embedded in Lean 4.

Modelling conventions:
* Python `dict` objects (which preserve insertion order) are modelled as
  association lists `List (String × α)` with `lookupA` / `updateA` / `setA`
  mirroring `d[k]`, in-place value update, and `d[k] = v`.
* The age-distribution dict, whose keys are exactly the seven fixed category
  keys created by `create_age_distribution`, is modelled as a record
  `AgeDist` with one `Nat` field per key.
* Python integers are modelled as `Nat` (sizes, counts) or `Int` (epoch
  seconds); `datetime` values are modelled at second granularity.
* External collaborators (`email.utils.parseaddr`, date parsing, the Gmail
  client) are passed in as explicit parameters or record fields, so theorems
  quantify over their behaviour.
-/

/-- The seven age category keys, in the fixed order of `AGE_CATEGORIES`. -/

inductive AgeCat
  | today
  | week
  | month
  | threeMonths
  | sixMonths
  | year
  | older
  deriving DecidableEq

/-- String key of an age category, as in the first component of the
`AGE_CATEGORIES` entries. -/

def AgeCat.key : AgeCat → String
  | .today => "today"
  | .week => "week"
  | .month => "month"
  | .threeMonths => "3months"
  | .sixMonths => "6months"
  | .year => "year"
  | .older => "older"

/-- The age-distribution dict: one counter per fixed category key. -/

structure AgeDist where
  today : Nat
  week : Nat
  month : Nat
  threeMonths : Nat
  sixMonths : Nat
  year : Nat
  older : Nat
  deriving DecidableEq

/-- Reading one bucket of the distribution (`d[cat]`). -/

def AgeDist.get (d : AgeDist) : AgeCat → Nat
  | .today => d.today
  | .week => d.week
  | .month => d.month
  | .threeMonths => d.threeMonths
  | .sixMonths => d.sixMonths
  | .year => d.year
  | .older => d.older

/-- Incrementing one bucket (`d[cat] += 1`). -/

def AgeDist.incr (d : AgeDist) : AgeCat → AgeDist
  | .today => { d with today := d.today + 1 }
  | .week => { d with week := d.week + 1 }
  | .month => { d with month := d.month + 1 }
  | .threeMonths => { d with threeMonths := d.threeMonths + 1 }
  | .sixMonths => { d with sixMonths := d.sixMonths + 1 }
  | .year => { d with year := d.year + 1 }
  | .older => { d with older := d.older + 1 }

/-- Pointwise sum of two distributions
(`for cat, count in other.items(): d[cat] += count`). -/

def AgeDist.add (a b : AgeDist) : AgeDist :=
  ⟨a.today + b.today, a.week + b.week, a.month + b.month,
   a.threeMonths + b.threeMonths, a.sixMonths + b.sixMonths,
   a.year + b.year, a.older + b.older⟩

/-- Sum of the dict's values (`sum(age_distribution.values())`). -/

def AgeDist.valuesSum (d : AgeDist) : Nat :=
  d.today + d.week + d.month + d.threeMonths + d.sixMonths + d.year + d.older

/-- `create_age_distribution()`: every fixed key pre-populated at zero. -/

def create_age_distribution : AgeDist := ⟨0, 0, 0, 0, 0, 0, 0⟩

/-- `EmailInfo`: extracted facts of a single message. -/

structure EmailInfo where
  message_id : String
  subject : String
  date : String
  snippet : String
  size : Nat
  unsubscribe_link : Option String
  age_category : AgeCat
  deriving DecidableEq

/-- `SenderAggregation`: running aggregate for one sender. -/

structure SenderAggregation where
  email : String
  name : String
  domain : String
  count : Nat
  total_size : Nat
  emails : List EmailInfo
  unsubscribe_link : Option String
  age_distribution : AgeDist
  deriving DecidableEq

/-- A freshly created `SenderAggregation(email=…, name=…, domain=…)`. -/

def mkSenderAggregation (email name domain : String) : SenderAggregation :=
  ⟨email, name, domain, 0, 0, [], none, create_age_distribution⟩

/-- `SenderAggregation.add_email`. -/

def SenderAggregation.add_email (s : SenderAggregation) (e : EmailInfo) :
    SenderAggregation :=
  { s with
    count := s.count + 1,
    total_size := s.total_size + e.size,
    emails := s.emails ++ [e],
    age_distribution := s.age_distribution.incr e.age_category,
    unsubscribe_link :=
      match e.unsubscribe_link with
      | some l => some l
      | none => s.unsubscribe_link }

/-- A whole sequence of `add_email` calls on a fresh aggregation. -/

def senderFold (email name domain : String) (es : List EmailInfo) :
    SenderAggregation :=
  es.foldl SenderAggregation.add_email (mkSenderAggregation email name domain)

/-- Association-list model of a Python dict lookup `d.get(k)`. -/

def lookupA {α : Type} (l : List (String × α)) (k : String) : Option α :=
  (l.find? (fun p => p.1 == k)).map (·.2)

/-- Updating the value stored under an existing key in place. -/

def updateA {α : Type} : List (String × α) → String → (α → α) →
    List (String × α)
  | [], _, _ => []
  | p :: ps, k, f =>
    if p.1 == k then (p.1, f p.2) :: ps else p :: updateA ps k f

/-- Python dict assignment `d[k] = v`: replaces in place when the key exists,
appends otherwise (dicts preserve insertion order). -/

def setA {α : Type} (l : List (String × α)) (k : String) (v : α) :
    List (String × α) :=
  if (lookupA l k).isSome then updateA l k (fun _ => v) else l ++ [(k, v)]

/-- Sum of `g` over a list (`sum(g(x) for x in l)`). -/

def sumBy {α : Type} (g : α → Nat) (l : List α) : Nat := (l.map g).sum

/-- `DomainAggregation`: running aggregate for one domain. -/

structure DomainAggregation where
  domain : String
  total_count : Nat
  total_size : Nat
  senders : List (String × SenderAggregation)
  age_distribution : AgeDist
  deriving DecidableEq

/-- A freshly created `DomainAggregation(domain=…)`. -/

def mkDomainAggregation (domain : String) : DomainAggregation :=
  ⟨domain, 0, 0, [], create_age_distribution⟩

/-- The merge performed by `DomainAggregation.add_sender` on an existing
entry for the same sender email. -/

def mergeSenderInto (ex s : SenderAggregation) : SenderAggregation :=
  { ex with
    count := ex.count + s.count,
    total_size := ex.total_size + s.total_size,
    emails := ex.emails ++ s.emails,
    age_distribution := ex.age_distribution.add s.age_distribution,
    unsubscribe_link :=
      match s.unsubscribe_link with
      | some l => some l
      | none => ex.unsubscribe_link }

/-- `DomainAggregation.add_sender`. -/

def DomainAggregation.add_sender (d : DomainAggregation)
    (s : SenderAggregation) : DomainAggregation :=
  let senders' :=
    if (lookupA d.senders s.email).isSome then
      updateA d.senders s.email (fun ex => mergeSenderInto ex s)
    else
      d.senders ++ [(s.email, s)]
  { d with
    senders := senders',
    total_count := d.total_count + s.count,
    total_size := d.total_size + s.total_size,
    age_distribution := d.age_distribution.add s.age_distribution }

/-- A whole sequence of `add_sender` calls on a fresh aggregation. -/

def domainFold (domain : String) (ss : List SenderAggregation) :
    DomainAggregation :=
  ss.foldl DomainAggregation.add_sender (mkDomainAggregation domain)

/-! Helper lemmas about the distribution record and association lists. -/

/-!  Date/age classification (`AGE_CATEGORIES`, `get_age_category`). -/

/-- A Python `datetime` at second granularity: wall-clock seconds since the
epoch paired with an optional UTC offset in seconds (`none` models a
timezone-naive value, `some off` a `tzinfo` with `utcoffset() = off`). -/

structure PyDatetime where
  secs : Int
  tz : Option Int
  deriving DecidableEq

/-- The UTC instant denoted by the datetime once `get_age_category` has
applied `replace(tzinfo=timezone.utc)` to a naive value: a naive value keeps
its wall-clock reading, an aware value subtracts its offset. -/

def PyDatetime.utcSecs (d : PyDatetime) : Int :=
  match d.tz with
  | none => d.secs
  | some off => d.secs - off

/-- The `AGE_CATEGORIES` table: (key, label, max-days), where `none` models
`float(\x27inf\x27)` on the final `older` entry. -/

def AGE_CATEGORIES : List (AgeCat × String × Option Nat) :=
  [(.today, "Today", some 1),
   (.week, "This Week", some 7),
   (.month, "This Month", some 30),
   (.threeMonths, "Last 3 Months", some 90),
   (.sixMonths, "Last 6 Months", some 180),
   (.year, "Last Year", some 365),
   (.older, "Older", none)]

/-- The loop condition `days_old < max_days`, with `none` as `float('inf')`
(always true). -/

def daysLt (d : Int) : Option Nat → Bool
  | none => true
  | some m => decide (d < (m : Int))

/-- `get_age_category(email_date)`, with `now` (the epoch seconds of
`datetime.now(timezone.utc)`) passed explicitly.  `days_old` is the `days`
field of the Python timedelta `now - email_date`, which floors the second
difference over 86400 (`Int.fdiv`). -/

def get_age_category (email_date : Option PyDatetime) (now : Int) : AgeCat :=
  match email_date with
  | none => .older
  | some d =>
    let days_old : Int := Int.fdiv (now - d.utcSecs) 86400
    match AGE_CATEGORIES.find? (fun e => daysLt days_old e.2.2) with
    | some e => e.1
    | none => .older

/-- Spec-side classifier, written from the spec's words: the first entry of
the fixed order today(1), week(7), month(30), 3months(90), 6months(180),
year(365), older(unbounded) whose max-age strictly exceeds the whole-day age
floor((now - instant) / 1 day); absent instants classify as older. -/

def classifyAgeSpec (email_date : Option PyDatetime) (now : Int) : AgeCat :=
  match email_date with
  | none => .older
  | some d =>
    let days : Int := Int.fdiv (now - d.utcSecs) 86400
    if days < 1 then .today
    else if days < 7 then .week
    else if days < 30 then .month
    else if days < 90 then .threeMonths
    else if days < 180 then .sixMonths
    else if days < 365 then .year
    else .older

/-!  Sender identity extraction (`extract_sender_info`). -/

/-- Python `str.lower()` restricted to ASCII, at character level (the
repository only compares ASCII header content). -/

def pyLower (s : String) : String := String.mk (s.toList.map Char.toLower)

/-- Python `str.split(sep)` for a one-character separator, at character
level: splits on every occurrence, keeping empty fields. -/

def splitChList (c : Char) : List Char → List (List Char)
  | [] => [[]]
  | x :: xs =>
    match splitChList c xs with
    | [] => [[]]
    | g :: gs => if x = c then [] :: g :: gs else (x :: g) :: gs

/-- String-level wrapper of `splitChList`. -/

def pySplit (s : String) (c : Char) : List String :=
  (splitChList c s.toList).map (fun l => String.mk l)

/-- `extract_sender_info`, with the result of `email.utils.parseaddr`
supplied as the explicit parameter `parseaddr` (CPython's header parser is
an external collaborator quantified over by the theorems). -/

def extract_sender_info (parseaddr : String → String × String)
    (from_header : String) : String × String × String :=
  let name0 := (parseaddr from_header).1
  let email := pyLower (parseaddr from_header).2
  let domain :=
    if email.toList.contains '@' then (pySplit email '@').getD 1 "" else ""
  let name :=
    if name0 = "" then
      if email.toList.contains '@' then (pySplit email '@').getD 0 "" else email
    else name0
  (name, email, domain)

/-- Spec-side helper: the substring of `s` after the first occurrence of
`ch` (the claim's wording for the domain), or `""` when `ch` is absent. -/

def afterFirstCh (s : String) (ch : Char) : String :=
  if s.toList.contains ch then
    String.mk ((s.toList.dropWhile (fun c => c != ch)).drop 1)
  else ""

/-- Spec-side helper: the substring of `s` before the first occurrence of
`ch` (the local part of an address). -/

def beforeFirstCh (s : String) (ch : Char) : String :=
  String.mk (s.toList.takeWhile (fun c => c != ch))

/-- Spec-side helper: the substring of `s` strictly between the first
occurrence of `ch` and the next occurrence, running to the end of the
string when there is no further occurrence (Python `s.split(ch)[1]`). -/

def betweenFirstChs (s : String) (ch : Char) : String :=
  String.mk
    (((s.toList.dropWhile (fun c => c != ch)).drop 1).takeWhile
      (fun c => c != ch))

/-- CPython 3.11 `email.utils.parseaddr` returns `("", "\"a@b\"@c")` for the
From header `"a@b"@c` (a quoted local part containing an `@`); this function
records that single documented input/output pair of the external parser. -/

def parseaddrQuotedLocal : String → String × String :=
  fun h => if h = "\"a@b\"@c" then ("", "\"a@b\"@c") else ("", "")

/-!  Unsubscribe-URL validation (`validate_unsubscribe_url`).

The scheme/netloc splitting performed by `urllib.parse.urlparse` is
modelled after CPython 3.11's `urlsplit`: removal of tab/CR/LF, scheme
extraction (first char an ASCII letter, remaining chars in `scheme_chars`,
lower-cased), netloc extraction after `//` up to the first of `/?#`, and
the three ValueError paths that the validator's `except` maps to `None`
(modelled as `none` here): mismatched IPv6 brackets, the
`_check_bracketed_host` validation of a bracketed host (an IPvFuture
literal or a possibly scoped IPv6 address per the `ipaddress` module), and
the `_checknetloc` rejection of a non-ASCII netloc that changes under NFKC
normalization into text containing one of `/?#@:`.  NFKC normalization
(`unicodedata.normalize`) is an external collaborator supplied as the
explicit parameter `nfkc`, like `parseaddr`. -/

/-- Characters removed from the URL before parsing
(`_UNSAFE_URL_BYTES_TO_REMOVE`). -/

def unsafeUrlChars : List Char := ['\t', '\r', '\n']

/-- Membership in urllib's `scheme_chars` (ASCII letters, digits, `+-.`). -/

def isSchemeChar (c : Char) : Bool :=
  c.isAlpha || c.isDigit || c = '+' || c = '-' || c = '.'

/-- Splits at the first colon (`url.find(':')`):
`none` when there is no colon. -/

def splitAtColon : List Char → Option (List Char × List Char)
  | [] => none
  | c :: cs =>
    if c = ':' then some ([], cs)
    else
      match splitAtColon cs with
      | none => none
      | some (a, b) => some (c :: a, b)

/-- Scheme extraction of `urlsplit`: the part before the first colon is a
scheme when the colon is not at position 0, the first character is an ASCII
letter, and the remaining characters are scheme characters; the scheme is
lower-cased.  Otherwise the scheme is empty and the URL is untouched. -/

def extractScheme (cs : List Char) : String × List Char :=
  match splitAtColon cs with
  | none => ("", cs)
  | some (before, after) =>
    match before with
    | [] => ("", cs)
    | b0 :: brest =>
      if b0.isAlpha && brest.all isSchemeChar then
        (String.mk ((b0 :: brest).map Char.toLower), after)
      else ("", cs)

/-- ASCII test (`str.isascii`): every code point below 128. -/
def isAsciiChar (c : Char) : Bool := c.toNat < 128

/-- ASCII hexadecimal digit. -/
def isHexDigitChar (c : Char) : Bool :=
  c.isDigit || ('a' ≤ c && c ≤ 'f') || ('A' ≤ c && c ≤ 'F')

/-- The part of `l` after the first occurrence of `c`
(Python `l.partition(c)[2]`), empty when `c` is absent. -/
def partitionAfter (c : Char) (l : List Char) : List Char :=
  match l.dropWhile (fun x => x != c) with
  | [] => []
  | _ :: rest => rest

/-- Decimal value of a digit string. -/
def decValue (l : List Char) : Nat :=
  l.foldl (fun a c => a * 10 + (c.toNat - '0'.toNat)) 0

/-- One dotted-quad octet as `ipaddress.IPv4Address` accepts it: one to
three ASCII digits, value at most 255, leading zeros not permitted. -/
def isIPv4Octet (s : List Char) : Bool :=
  !s.isEmpty && s.length ≤ 3 && s.all Char.isDigit &&
    decValue s ≤ 255 && (s.length = 1 || s.head? != some '0')

/-- `ipaddress.IPv4Address` validity: exactly four valid octets. -/
def isIPv4 (s : List Char) : Bool :=
  let parts := splitChList '.' s
  parts.length = 4 && parts.all isIPv4Octet

/-- One IPv6 hextet: one to four hexadecimal digits. -/
def isHextet (s : List Char) : Bool :=
  !s.isEmpty && s.length ≤ 4 && s.all isHexDigitChar

/-- `ipaddress.IPv6Address` validity for an address without scope id,
following `_ip_int_from_string`: split on `:`; at least three parts; an
IPv4-style last part must be a valid IPv4 address and counts as two
hextets; at most nine parts; at most one empty interior part (the `::`),
with a leading or trailing `:` only as part of a `::`; without `::`
exactly eight hextets, with `::` at least one hextet elided. -/
def isIPv6Addr (s : List Char) : Bool :=
  if s.isEmpty then false
  else
    let parts0 := splitChList ':' s
    if parts0.length < 3 then false
    else
      let expanded : Option (List (List Char)) :=
        match parts0.getLast? with
        | none => none
        | some last =>
          if last.contains '.' then
            if isIPv4 last then some (parts0.dropLast ++ [['0'], ['0']])
            else none
          else some parts0
      match expanded with
      | none => false
      | some parts =>
        if parts.length > 9 then false
        else
          let interior := (parts.drop 1).dropLast
          let empties := interior.countP (fun p => p.isEmpty)
          if empties > 1 then false
          else if empties = 1 then
            let skip_index := 1 + interior.findIdx (fun p => p.isEmpty)
            let headEmpty : Bool :=
              match parts.head? with | some [] => true | _ => false
            let lastEmpty : Bool :=
              match parts.getLast? with | some [] => true | _ => false
            if headEmpty && skip_index ≠ 1 then false
            else if lastEmpty && skip_index ≠ parts.length - 2 then false
            else
              let hi := if headEmpty then 0 else skip_index
              let lo := if lastEmpty then 0 else parts.length - skip_index - 1
              if hi + lo ≥ 8 then false
              else
                (parts.take hi).all isHextet &&
                  (parts.drop (parts.length - lo)).all isHextet
          else
            parts.length = 8 && parts.all isHextet

/-- `ipaddress.ip_address` IPv6 validity with an optional `%scope` suffix
(the scope id must be non-empty and contain no further `%`). -/
def isIPv6WithScope (s : List Char) : Bool :=
  if s.contains '%' then
    let addr := s.takeWhile (fun c => c != '%')
    let scope := partitionAfter '%' s
    !scope.isEmpty && !scope.contains '%' && isIPv6Addr addr
  else isIPv6Addr s

/-- The IPvFuture pattern of `_check_bracketed_host`
(`v`, one or more hexadecimal digits, `.`, then at least one character). -/
def isIPvFuture (s : List Char) : Bool :=
  match s with
  | 'v' :: rest =>
    let hex := rest.takeWhile isHexDigitChar
    let tail := rest.drop hex.length
    !hex.isEmpty &&
      (match tail with
       | '.' :: more => !more.isEmpty
       | _ => false)
  | _ => false

/-- `_check_bracketed_host` (CPython 3.11): a host starting with `v` must
be an IPvFuture literal; any other host must parse as a (possibly scoped)
IPv6 address — an IPv4 address in brackets or an unparsable host raises. -/
def bracketedHostOk (s : List Char) : Bool :=
  match s with
  | 'v' :: _ => isIPvFuture s
  | _ => isIPv6WithScope s

/-- The bracketed host extracted by `urlsplit`:
`netloc.partition('[')[2].partition(']')[0]`. -/
def bracketedHostOf (netloc : List Char) : List Char :=
  (partitionAfter '[' netloc).takeWhile (fun x => x != ']')

/-- `_checknetloc` (CPython 3.11), with NFKC normalization supplied as the
external collaborator `nfkc`: an empty or all-ASCII netloc passes;
otherwise the netloc with `@:#?` removed must either be NFKC-stable or
normalize to text free of `/?#@:`.  Returns `false` when the check
raises. -/
def checknetlocOk (nfkc : String → String) (netloc : List Char) : Bool :=
  if netloc.isEmpty || netloc.all isAsciiChar then true
  else
    let n := netloc.filter
      (fun c => !(c = '@' || c = ':' || c = '#' || c = '?'))
    let n2 := (nfkc (String.mk n)).toList
    if n = n2 then true
    else
      !(n2.any (fun c => c = '/' || c = '?' || c = '#' || c = '@' || c = ':'))

/-- The `(scheme, netloc)` pair computed by `urlsplit`, with `none`
modelling a raised ValueError: mismatched IPv6 brackets, a bracketed host
rejected by `_check_bracketed_host`, or a netloc rejected by
`_checknetloc`. -/
def urlsplit_scheme_netloc (nfkc : String → String) (url : String) :
    Option (String × String) :=
  let cleaned := url.toList.filter (fun c => !(unsafeUrlChars.contains c))
  let sr := extractScheme cleaned
  let rest := sr.2
  if rest.take 2 = ['/', '/'] then
    let netloc := (rest.drop 2).takeWhile
      (fun c => !(c = '/' || c = '?' || c = '#'))
    if (netloc.contains '[' && !(netloc.contains ']')) ||
        (netloc.contains ']' && !(netloc.contains '[')) then
      none
    else if netloc.contains '[' && netloc.contains ']' &&
        !(bracketedHostOk (bracketedHostOf netloc)) then
      none
    else if !(checknetlocOk nfkc netloc) then none
    else some (sr.1, String.mk netloc)
  else
    some (sr.1, "")

/-- The host computed by `validate_unsubscribe_url`:
`parsed.netloc.lower().split(':')[0]`. -/

def hostOfNetloc (netloc : String) : String :=
  (pySplit (pyLower netloc) ':').getD 0 ""

/-- `validate_unsubscribe_url` (the NFKC collaborator is threaded through
to `urlparse`). -/

def validate_unsubscribe_url (nfkc : String → String) (url : String) :
    Option String :=
  if url = "" then none
  else
    match urlsplit_scheme_netloc nfkc url with
    | none => none
    | some sn =>
      if !(["http", "https", "mailto"].contains sn.1) then none
      else if ["javascript", "data", "vbscript"].contains (pyLower sn.1) then
        none
      else if ["http", "https"].contains sn.1 then
        if sn.2 = "" then none
        else if ["localhost", "127.0.0.1", "0.0.0.0", "::1"].contains
            (hostOfNetloc sn.2) then
          none
        else some url
      else some url

/-!  Message processing and orchestration (`EmailAggregator`). -/

/-- Message detail payload fields read by the aggregator; an empty upstream
placeholder is modelled as `Option.none` at the call sites. -/

structure MsgDetails where
  headers : List (String × String)
  snippet : String
  sizeEstimate : Nat
  deriving DecidableEq

/-- `get_header_value`: value of the first header whose name matches
case-insensitively, else the empty string. -/

def get_header_value (headers : List (String × String)) (name : String) :
    String :=
  match headers.find? (fun h => pyLower h.1 == pyLower name) with
  | some h => h.2
  | none => ""

/-- Scans `[^>]+>`: the characters up to the first `>`, which must be at
least one; `acc` holds the reversed prefix already consumed. -/

def scanToGt (acc : List Char) : List Char → Option (List Char)
  | [] => none
  | c :: rest =>
    if c = '>' then (if acc.isEmpty then none else some acc.reverse)
    else scanToGt (c :: acc) rest

/-- The regex `<(https?://[^>]+)>` anchored at the current position,
returning the captured group. -/

def tryUnsubAt (cs : List Char) : Option String :=
  if cs.take 9 = "<https://".toList then
    (scanToGt [] (cs.drop 9)).map (fun b => "https://" ++ String.mk b)
  else if cs.take 8 = "<http://".toList then
    (scanToGt [] (cs.drop 8)).map (fun b => "http://" ++ String.mk b)
  else none

/-- First match of `re.findall(r'<(https?://[^>]+)>', s)` scanning left to
right. -/

def findFirstUnsubUrl : List Char → Option String
  | [] => none
  | c :: rest =>
    match tryUnsubAt (c :: rest) with
    | some u => some u
    | none => findFirstUnsubUrl rest

/-- `EmailAggregator._process_message_details`, with the external parsers
(`email.utils.parseaddr`, `parse_email_date`) and the current instant
supplied as parameters.  Empty/absent details yield `none`. -/

def _process_message_details (nfkc : String → String)
    (parseaddr : String → String × String)
    (parseDate : String → Option PyDatetime) (now : Int)
    (message_id : String) (details : Option MsgDetails) :
    Option (String × String × String × EmailInfo) :=
  match details with
  | none => none
  | some det =>
    let from_header := get_header_value det.headers "From"
    let subject := get_header_value det.headers "Subject"
    let date := get_header_value det.headers "Date"
    let unsubscribe := get_header_value det.headers "List-Unsubscribe"
    let unsubscribe_link :=
      if unsubscribe = "" then none
      else
        match findFirstUnsubUrl unsubscribe.toList with
        | none => none
        | some u => validate_unsubscribe_url nfkc u
    let nel := extract_sender_info parseaddr from_header
    let age_category := get_age_category (parseDate date) now
    some (nel.1, nel.2.1, nel.2.2,
      { message_id := message_id, subject := subject, date := date,
        snippet := det.snippet, size := det.sizeEstimate,
        unsubscribe_link := unsubscribe_link, age_category := age_category })

/-- The Gmail client collaborator as the aggregator consumes it:
`email_address`, `get_messages` (the listed message ids for the given
`max_results` and query) and the per-id detail fetch.
`get_messages_batch` returns details positionally aligned with the
requested ids, an empty placeholder (`none`) for each failed id, so a batch
call on ids `b` yields `b.map fetchDetail`. -/

structure GmailClient where
  email_address : Option String
  get_messages : Option Nat → String → List String
  fetchDetail : String → Option MsgDetails

/-- The account-manager collaborator: the `accounts` dict. -/

structure GmailAccountManager where
  accounts : List (String × GmailClient)

/-- Python `a or b` for an optional string (`None` and `""` are falsy). -/

def pyOr (a : Option String) (b : String) : String :=
  match a with
  | none => b
  | some s => if s = "" then b else s

/-- `AccountAggregation`. -/

structure AccountAggregation where
  account_id : String
  email_address : String
  total_emails : Nat
  total_size : Nat
  senders : List (String × SenderAggregation)
  domains : List (String × DomainAggregation)
  deriving DecidableEq

/-- The aggregator's in-memory store `self.aggregations`. -/

abbrev AggStore := List (String × AccountAggregation)

/-- The per-message step of `aggregate_account`'s batch loop: skip
unfetchable details, create the sender entry on first sight, then
`add_email`. -/

def processMessage (nfkc : String → String)
    (parseaddr : String → String × String)
    (parseDate : String → Option PyDatetime) (now : Int)
    (m : List (String × SenderAggregation)) (mid : String)
    (det : Option MsgDetails) : List (String × SenderAggregation) :=
  match _process_message_details nfkc parseaddr parseDate now mid det with
  | none => m
  | some r =>
    let email := r.2.1
    let m1 :=
      if (lookupA m email).isSome then m
      else m ++ [(email, mkSenderAggregation email r.1 r.2.2.1)]
    updateA m1 email (fun s => s.add_email r.2.2.2)

/-- One iteration of the sender/domain building loop of
`aggregate_account` (accumulates the account aggregation and the
`domains_data` dict). -/

def foldSenderIntoAccount
    (acc : AccountAggregation × List (String × DomainAggregation))
    (entry : String × SenderAggregation) :
    AccountAggregation × List (String × DomainAggregation) :=
  let sender := entry.2
  let agg' :=
    { acc.1 with
      senders := setA acc.1.senders sender.email sender,
      total_emails := acc.1.total_emails + sender.count,
      total_size := acc.1.total_size + sender.total_size }
  let dd :=
    if (lookupA acc.2 sender.domain).isSome then acc.2
    else acc.2 ++ [(sender.domain, mkDomainAggregation sender.domain)]
  (agg', updateA dd sender.domain (fun d => d.add_sender sender))

/-- The successful body of `aggregate_account`: list the message ids, fold
the per-message batch loop into `senders_data`, then build the account and
domain aggregates.  The source iterates over 100-id chunks whose batch
results are positionally aligned with the chunk (`b.map fetchDetail`);
concatenating the chunks makes that loop the single left fold over the
listed ids used here. -/

def buildAccountAggregation (nfkc : String → String)
    (parseaddr : String → String × String)
    (parseDate : String → Option PyDatetime) (now : Int)
    (account_id : String) (client : GmailClient) (max_emails : Option Nat)
    (query : String) : AccountAggregation :=
  let message_ids := client.get_messages max_emails query
  let senders_data := message_ids.foldl
    (fun m mid =>
      processMessage nfkc parseaddr parseDate now m mid (client.fetchDetail mid))
    []
  let agg0 : AccountAggregation :=
    { account_id := account_id,
      email_address := pyOr client.email_address account_id,
      total_emails := 0, total_size := 0, senders := [], domains := [] }
  let built := senders_data.foldl foldSenderIntoAccount (agg0, [])
  { built.1 with domains := built.2 }

/-- `EmailAggregator.aggregate_account`: the raised error or the finished
aggregation, together with the resulting store (`self.aggregations`). -/

def aggregate_account (nfkc : String → String)
    (parseaddr : String → String × String)
    (parseDate : String → Option PyDatetime) (now : Int)
    (mgr : GmailAccountManager) (store : AggStore) (account_id : String)
    (max_emails : Option Nat) (query : String) :
    Except String AccountAggregation × AggStore :=
  match lookupA mgr.accounts account_id with
  | none => (.error ("Account " ++ account_id ++ " not found"), store)
  | some client =>
    let aggregation := buildAccountAggregation nfkc parseaddr parseDate now
      account_id client max_emails query
    (.ok aggregation, setA store account_id aggregation)

/-- `EmailAggregator.get_message_ids_for_sender`. -/

def get_message_ids_for_sender (store : AggStore)
    (account_id sender_email : String) : List String :=
  match lookupA store account_id with
  | none => []
  | some agg =>
    match lookupA agg.senders sender_email with
    | none => []
    | some s => s.emails.map (·.message_id)

/-- `EmailAggregator.get_message_ids_for_domain` (the loop extending
`message_ids` across the domain's senders is the left fold). -/

def get_message_ids_for_domain (store : AggStore)
    (account_id domain : String) : List String :=
  match lookupA store account_id with
  | none => []
  | some agg =>
    match lookupA agg.domains domain with
    | none => []
    | some d =>
      d.senders.foldl (fun ids p => ids ++ p.2.emails.map (·.message_id)) []

/-- Spec-side description of `get_message_ids_for_sender`: the ids of the
sender's stored emails in order, empty when the account or sender is
unknown. -/

def specSenderIds (store : AggStore) (account_id sender_email : String) :
    List String :=
  ((lookupA store account_id).bind
    (fun agg => lookupA agg.senders sender_email)).elim []
    (fun s => s.emails.map (·.message_id))

/-- Spec-side description of `get_message_ids_for_domain`: the
concatenation of the member senders' message ids, empty when the account or
domain is unknown. -/

def specDomainIds (store : AggStore) (account_id domain : String) :
    List String :=
  ((lookupA store account_id).bind
    (fun agg => lookupA agg.domains domain)).elim []
    (fun d => d.senders.flatMap (fun p => p.2.emails.map (·.message_id)))

/-!  Ranked queries (`get_top_senders`, `get_top_domains`). -/

/-- Stable descending insertion: an element is placed before the first
already-sorted element whose key is not larger, so earlier elements precede
later ones among equal keys. -/

def insertDesc {α : Type} (key : α → Nat) (x : α) : List α → List α
  | [] => [x]
  | y :: ys => if key y ≤ key x then x :: y :: ys else y :: insertDesc key x ys

/-- Stable descending sort by a `Nat` key, modelling Python's stable
`list.sort(key=…, reverse=True)` (reverse sorting in Python does not
reorder equal elements). -/

def sortDesc {α : Type} (key : α → Nat) (l : List α) : List α :=
  l.foldr (insertDesc key) []

/-- The `results` list built by `get_top_senders` before sorting: account
iteration order, then per-account sender insertion order; a falsy
`account_id` (None or the empty string) selects all accounts. -/

def flattenSenders (store : AggStore) (account_id : Option String) :
    List (String × SenderAggregation) :=
  let accounts : List String :=
    match account_id with
    | some a => if a = "" then store.map (fun p => p.1) else [a]
    | none => store.map (fun p => p.1)
  accounts.flatMap (fun acc_id =>
    match lookupA store acc_id with
    | none => ([] : List (String × SenderAggregation))
    | some agg => agg.senders.map (fun p => (acc_id, p.2)))

/-- The `results` list built by `get_top_domains` before sorting. -/

def flattenDomains (store : AggStore) (account_id : Option String) :
    List (String × DomainAggregation) :=
  let accounts : List String :=
    match account_id with
    | some a => if a = "" then store.map (fun p => p.1) else [a]
    | none => store.map (fun p => p.1)
  accounts.flatMap (fun acc_id =>
    match lookupA store acc_id with
    | none => ([] : List (String × DomainAggregation))
    | some agg => agg.domains.map (fun p => (acc_id, p.2)))

/-- `EmailAggregator.get_top_senders`. -/

def get_top_senders (store : AggStore) (account_id : Option String)
    (limit : Nat) : List (String × SenderAggregation) :=
  (sortDesc (fun r => r.2.count) (flattenSenders store account_id)).take limit

/-- `EmailAggregator.get_top_domains`. -/

def get_top_domains (store : AggStore) (account_id : Option String)
    (limit : Nat) : List (String × DomainAggregation) :=
  (sortDesc (fun r => r.2.total_count)
    (flattenDomains store account_id)).take limit

/-! Theorems: the claims and their helper lemmas. -/

theorem AgeDist.valuesSum_incr (d : AgeDist) (c : AgeCat) :
    (d.incr c).valuesSum = d.valuesSum + 1 := by
  cases c <;> simp [AgeDist.incr, AgeDist.valuesSum] <;> omega

theorem AgeDist.get_incr (d : AgeDist) (c c' : AgeCat) :
    (d.incr c).get c' = d.get c' + (if c' = c then 1 else 0) := by
  cases c <;> cases c' <;> simp [AgeDist.incr, AgeDist.get]

theorem AgeDist.get_add (a b : AgeDist) (c : AgeCat) :
    (a.add b).get c = a.get c + b.get c := by
  cases c <;> simp [AgeDist.add, AgeDist.get]

theorem sumBy_append {α : Type} (g : α → Nat) (l₁ l₂ : List α) :
    sumBy g (l₁ ++ l₂) = sumBy g l₁ + sumBy g l₂ := by
  simp [sumBy]

theorem sumBy_nil {α : Type} (g : α → Nat) : sumBy g ([] : List α) = 0 := rfl

theorem sumBy_cons {α : Type} (g : α → Nat) (x : α) (l : List α) :
    sumBy g (x :: l) = g x + sumBy g l := by
  simp [sumBy]

theorem sumBy_updateA {α : Type} (g : α → Nat) (l : List (String × α))
    (k : String) (f : α → α) (v : α) (hv : lookupA l k = some v) :
    sumBy (fun p => g p.2) (updateA l k f) + g v
      = sumBy (fun p => g p.2) l + g (f v) := by
  induction l with
  | nil => simp [lookupA] at hv
  | cons p ps ih =>
    by_cases hk : (p.1 == k) = true
    · have hfind : List.find? (fun q => q.1 == k) (p :: ps) = some p :=
        List.find?_cons_of_pos _ hk
      have hv2 : p.2 = v := by
        simp only [lookupA, hfind] at hv
        simpa using hv
      subst hv2
      simp [updateA, hk, sumBy_cons]
      omega
    · have hfind : List.find? (fun q => q.1 == k) (p :: ps) =
          List.find? (fun q => q.1 == k) ps :=
        List.find?_cons_of_neg _ hk
      rw [Bool.not_eq_true] at hk
      have hv2 : lookupA ps k = some v := by
        simp only [lookupA, hfind] at hv
        exact hv
      have := ih hv2
      simp only [updateA, hk, Bool.false_eq_true, if_false, sumBy_cons]
      omega

/-- Claim C1: for every SenderAggregation built by any sequence of
`add_email` calls from a fresh aggregation, `count` equals the length of
`emails`, `count` equals the sum of the values of `age_distribution`, and
`total_size` equals the sum of the member emails' sizes. -/
theorem C1_sender_invariant (email name domain : String)
    (es : List EmailInfo) :
    (senderFold email name domain es).count =
        (senderFold email name domain es).emails.length ∧
      (senderFold email name domain es).count =
        (senderFold email name domain es).age_distribution.valuesSum ∧
      (senderFold email name domain es).total_size =
        sumBy (·.size) (senderFold email name domain es).emails := by
  suffices h : ∀ (es : List EmailInfo) (s : SenderAggregation),
      s.count = s.emails.length →
      s.count = s.age_distribution.valuesSum →
      s.total_size = sumBy (·.size) s.emails →
      (es.foldl SenderAggregation.add_email s).count =
          (es.foldl SenderAggregation.add_email s).emails.length ∧
        (es.foldl SenderAggregation.add_email s).count =
          (es.foldl SenderAggregation.add_email s).age_distribution.valuesSum ∧
        (es.foldl SenderAggregation.add_email s).total_size =
          sumBy (·.size) (es.foldl SenderAggregation.add_email s).emails by
    exact h es (mkSenderAggregation email name domain) rfl rfl rfl
  intro es
  induction es with
  | nil => intro s h1 h2 h3; exact ⟨h1, h2, h3⟩
  | cons e es ih =>
    intro s h1 h2 h3
    refine ih (s.add_email e) ?_ ?_ ?_
    · simp [SenderAggregation.add_email, h1]
    · simp [SenderAggregation.add_email, AgeDist.valuesSum_incr, h2]
    · simp [SenderAggregation.add_email, sumBy_append, h3, sumBy]

theorem mergeSenderInto_count (ex s : SenderAggregation) :
    (mergeSenderInto ex s).count = ex.count + s.count := rfl

theorem mergeSenderInto_total_size (ex s : SenderAggregation) :
    (mergeSenderInto ex s).total_size = ex.total_size + s.total_size := rfl

theorem mergeSenderInto_age_get (ex s : SenderAggregation) (c : AgeCat) :
    (mergeSenderInto ex s).age_distribution.get c
      = ex.age_distribution.get c + s.age_distribution.get c :=
  AgeDist.get_add ex.age_distribution s.age_distribution c

/-- Claim C2: for every DomainAggregation built by any sequence of
`add_sender` calls from a fresh aggregation (merges of repeated sender
emails included), `total_count` is the sum of the member senders' counts,
`total_size` is the sum of their total sizes, and each age bucket is the sum
of that bucket over all member senders. -/
theorem C2_domain_invariant (domain : String)
    (ss : List SenderAggregation) :
    (domainFold domain ss).total_count =
        sumBy (·.2.count) (domainFold domain ss).senders ∧
      (domainFold domain ss).total_size =
        sumBy (·.2.total_size) (domainFold domain ss).senders ∧
      ∀ c : AgeCat, (domainFold domain ss).age_distribution.get c =
        sumBy (·.2.age_distribution.get c) (domainFold domain ss).senders := by
  suffices h : ∀ (ss : List SenderAggregation) (d : DomainAggregation),
      d.total_count = sumBy (·.2.count) d.senders →
      d.total_size = sumBy (·.2.total_size) d.senders →
      (∀ c : AgeCat, d.age_distribution.get c =
        sumBy (·.2.age_distribution.get c) d.senders) →
      (ss.foldl DomainAggregation.add_sender d).total_count =
          sumBy (·.2.count) (ss.foldl DomainAggregation.add_sender d).senders ∧
        (ss.foldl DomainAggregation.add_sender d).total_size =
          sumBy (·.2.total_size)
            (ss.foldl DomainAggregation.add_sender d).senders ∧
        ∀ c : AgeCat,
          (ss.foldl DomainAggregation.add_sender d).age_distribution.get c =
          sumBy (·.2.age_distribution.get c)
            (ss.foldl DomainAggregation.add_sender d).senders by
    refine h ss (mkDomainAggregation domain) rfl rfl ?_
    intro c; cases c <;> rfl
  intro ss
  induction ss with
  | nil => intro d h1 h2 h3; exact ⟨h1, h2, h3⟩
  | cons s ss ih =>
    intro d h1 h2 h3
    refine ih (d.add_sender s) ?_ ?_ ?_
    · rcases hv : lookupA d.senders s.email with _ | v
      · simp only [DomainAggregation.add_sender, hv, Option.isSome_none,
          Bool.false_eq_true, if_false, sumBy_append, sumBy_cons, sumBy_nil]
        omega
      · have key := sumBy_updateA (fun x => x.count) d.senders s.email
          (fun ex => mergeSenderInto ex s) v hv
        simp only [mergeSenderInto_count] at key
        simp only [DomainAggregation.add_sender, hv, Option.isSome_some,
          if_true]
        omega
    · rcases hv : lookupA d.senders s.email with _ | v
      · simp only [DomainAggregation.add_sender, hv, Option.isSome_none,
          Bool.false_eq_true, if_false, sumBy_append, sumBy_cons, sumBy_nil]
        omega
      · have key := sumBy_updateA (fun x => x.total_size) d.senders s.email
          (fun ex => mergeSenderInto ex s) v hv
        simp only [mergeSenderInto_total_size] at key
        simp only [DomainAggregation.add_sender, hv, Option.isSome_some,
          if_true]
        omega
    · intro c
      rcases hv : lookupA d.senders s.email with _ | v
      · have h3c := h3 c
        simp only [DomainAggregation.add_sender, hv, Option.isSome_none,
          Bool.false_eq_true, if_false, sumBy_append, sumBy_cons, sumBy_nil,
          AgeDist.get_add]
        omega
      · have key := sumBy_updateA (fun x => x.age_distribution.get c)
          d.senders s.email (fun ex => mergeSenderInto ex s) v hv
        simp only [mergeSenderInto_age_get] at key
        have h3c := h3 c
        simp only [DomainAggregation.add_sender, hv, Option.isSome_some,
          if_true, AgeDist.get_add]
        omega

/-- Claim C3: `get_age_category` returns the key of the first
`AGE_CATEGORIES` entry whose max-days strictly exceeds the floored whole-day
age (the spec-side cumulative-threshold classifier); an absent instant
yields `older`; a timezone-naive instant is treated as UTC; an instant
exactly 1 day 0 hours before now yields `week` (not `today`); a 5-day-old
instant yields `week` (not `month`). -/
theorem C3_age_classifier :
    (∀ (d : Option PyDatetime) (now : Int),
        get_age_category d now = classifyAgeSpec d now) ∧
      (∀ now : Int, get_age_category none now = .older) ∧
      (∀ (s now : Int),
        get_age_category (some ⟨s, none⟩) now
          = get_age_category (some ⟨s, some 0⟩) now) ∧
      (∀ now : Int,
        get_age_category (some ⟨now - 86400, some 0⟩) now = .week) ∧
      (∀ now : Int,
        get_age_category (some ⟨now - 5 * 86400, some 0⟩) now = .week) := by
  have key : ∀ (d : Option PyDatetime) (now : Int),
      get_age_category d now = classifyAgeSpec d now := by
    intro d now
    cases d with
    | none => rfl
    | some d =>
      simp only [get_age_category, classifyAgeSpec, AGE_CATEGORIES,
        List.find?, daysLt]
      set days : Int := Int.fdiv (now - d.utcSecs) 86400 with hdays
      by_cases h1 : days < 1 <;> by_cases h7 : days < 7 <;>
        by_cases h30 : days < 30 <;> by_cases h90 : days < 90 <;>
        by_cases h180 : days < 180 <;> by_cases h365 : days < 365 <;>
        simp [h1, h7, h30, h90, h180, h365]
  refine ⟨key, fun now => rfl, ?_, ?_, ?_⟩
  · intro s now
    simp [key, classifyAgeSpec, PyDatetime.utcSecs]
  · intro now
    have : Int.fdiv (now - (now - 86400 - 0)) 86400 = 1 := by
      rw [Int.fdiv_eq_ediv _ (by omega)]
      omega
    simp [key, classifyAgeSpec, PyDatetime.utcSecs, this]
  · intro now
    have : Int.fdiv (now - (now - 5 * 86400 - 0)) 86400 = 5 := by
      rw [Int.fdiv_eq_ediv _ (by omega)]
      omega
    simp [key, classifyAgeSpec, PyDatetime.utcSecs, this]

/-- Claim C10: a future-dated message (instant strictly later than now)
classifies as `today`, since its floored whole-day age is negative. -/
theorem C10_future_dated_today (d : PyDatetime) (now : Int)
    (h : now < d.utcSecs) :
    get_age_category (some d) now = .today := by
  have hd : Int.fdiv (now - d.utcSecs) 86400 < 1 := by
    rw [Int.fdiv_eq_ediv _ (by omega)]
    omega
  simp only [get_age_category, AGE_CATEGORIES, List.find?, daysLt]
  simp [hd]

/-- Witness for C10 at a concrete future-dated input: a message dated one
hour after "now". -/
theorem C10_future_dated_today_witness :
    get_age_category (some ⟨3600, some 0⟩) 0 = .today :=
  C10_future_dated_today ⟨3600, some 0⟩ 0 (by decide)

theorem splitChList_ne_nil (c : Char) (l : List Char) :
    splitChList c l ≠ [] := by
  induction l with
  | nil => simp [splitChList]
  | cons x xs ih =>
    simp only [splitChList]
    rcases h : splitChList c xs with _ | ⟨g, gs⟩
    · simp
    · by_cases hx : x = c <;> simp [hx]

theorem splitChList_first (c : Char) (l : List Char) :
    (splitChList c l).getD 0 [] = l.takeWhile (fun x => x != c) := by
  induction l with
  | nil => rfl
  | cons x xs ih =>
    rcases h : splitChList c xs with _ | ⟨g, gs⟩
    · exact absurd h (splitChList_ne_nil c xs)
    · rw [h] at ih
      simp only [List.getD_cons_zero] at ih
      by_cases hx : x = c
      · have hxb : (x != c) = false := by simp [hx]
        simp [splitChList, h, hx, List.takeWhile_cons, hxb]
      · have hxb : (x != c) = true := by simp [hx]
        simp [splitChList, h, hx, List.takeWhile_cons, hxb, ih]

theorem splitChList_second (c : Char) (l : List Char) :
    (splitChList c l).getD 1 []
      = ((l.dropWhile (fun x => x != c)).drop 1).takeWhile (fun x => x != c) := by
  induction l with
  | nil => rfl
  | cons x xs ih =>
    rcases h : splitChList c xs with _ | ⟨g, gs⟩
    · exact absurd h (splitChList_ne_nil c xs)
    · by_cases hx : x = c
      · have hxb : (x != c) = false := by simp [hx]
        have hfirst := splitChList_first c xs
        rw [h] at hfirst
        simp only [List.getD_cons_zero] at hfirst
        simp [splitChList, h, hx, hxb, List.dropWhile_cons, hfirst]
      · have hxb : (x != c) = true := by simp [hx]
        rw [h] at ih
        simpa [splitChList, h, hx, hxb, List.dropWhile_cons] using ih

theorem getD_map_mk (l : List (List Char)) (i : Nat) :
    (l.map (fun x => String.mk x)).getD i "" = String.mk (l.getD i []) := by
  induction l generalizing i with
  | nil => cases i <;> rfl
  | cons g gs ih =>
    cases i with
    | zero => rfl
    | succ n => simp only [List.map_cons, List.getD_cons_succ, ih n]

theorem pySplit_getD_zero (s : String) (c : Char) :
    (pySplit s c).getD 0 "" = beforeFirstCh s c := by
  rw [pySplit, getD_map_mk, splitChList_first]
  rfl

theorem pySplit_getD_one (s : String) (c : Char) :
    (pySplit s c).getD 1 "" = betweenFirstChs s c := by
  rw [pySplit, getD_map_mk, splitChList_second]
  rfl

/-- Counterexample to claim C8: on the From header `"a@b"@c` (whose parsed
address is `"a@b"@c`), the code's domain is `b"` — Python `split('@')[1]`,
the text between the first and second `@` — not the claim's substring after
the first `@`, which is `b"@c`. -/
theorem C8_counterexample :
    (extract_sender_info parseaddrQuotedLocal "\"a@b\"@c").2.2 = "b\"" ∧
      afterFirstCh
        (extract_sender_info parseaddrQuotedLocal "\"a@b\"@c").2.1 '@'
        = "b\"@c" ∧
      (extract_sender_info parseaddrQuotedLocal "\"a@b\"@c").2.2 ≠
        afterFirstCh
          (extract_sender_info parseaddrQuotedLocal "\"a@b\"@c").2.1 '@' := by
  refine ⟨by decide, by decide, by decide⟩

/-- Claim C8 as amended: for every From header, the email is the parsed
address lower-cased; the domain is the text strictly between the first `@`
and the next `@` if any (Python `split('@')[1]`), or empty when the email
has no `@`; and when the parsed display-name is empty the name falls back
to the local part before the first `@`, or the whole email when it has no
`@`. -/
theorem C8_amended (pa : String → String × String) (h : String) :
    (extract_sender_info pa h).2.1 = pyLower (pa h).2 ∧
      (extract_sender_info pa h).2.2 =
        (if (pyLower (pa h).2).toList.contains '@' then
          betweenFirstChs (pyLower (pa h).2) '@'
        else "") ∧
      ((pa h).1 = "" →
        (extract_sender_info pa h).1 =
          (if (pyLower (pa h).2).toList.contains '@' then
            beforeFirstCh (pyLower (pa h).2) '@'
          else pyLower (pa h).2)) ∧
      ((pa h).1 ≠ "" → (extract_sender_info pa h).1 = (pa h).1) := by
  have hd : (extract_sender_info pa h).2.2
      = (if (pyLower (pa h).2).toList.contains '@' then
          (pySplit (pyLower (pa h).2) '@').getD 1 ""
        else "") := rfl
  have hnm : (extract_sender_info pa h).1
      = (if (pa h).1 = "" then
          (if (pyLower (pa h).2).toList.contains '@' then
            (pySplit (pyLower (pa h).2) '@').getD 0 ""
          else pyLower (pa h).2)
        else (pa h).1) := rfl
  refine ⟨rfl, ?_, ?_, ?_⟩
  · rw [hd, pySplit_getD_one]
  · intro hn
    rw [hnm, if_pos hn, pySplit_getD_zero]
  · intro hn
    rw [hnm, if_neg hn]

/-- Witness for the amended C8 at a concrete input: an upper-case address
with an empty display name. -/
theorem C8_amended_witness :
    (extract_sender_info (fun _ => ("", "User@Example.com")) "hdr").2.1
        = "user@example.com" ∧
      (extract_sender_info (fun _ => ("", "User@Example.com")) "hdr").1
        = "user" := by
  have m := C8_amended (fun _ => ("", "User@Example.com")) "hdr"
  refine ⟨m.1.trans (by decide), (m.2.2.1 rfl).trans (by decide)⟩

theorem validate_unfold (nfkc : String → String)
    (url scheme netloc : String) (hu : ¬url = "")
    (hsn : urlsplit_scheme_netloc nfkc url = some (scheme, netloc)) :
    validate_unsubscribe_url nfkc url =
      (if !(["http", "https", "mailto"].contains scheme) then none
       else if ["javascript", "data", "vbscript"].contains (pyLower scheme)
         then none
       else if ["http", "https"].contains scheme then
         if netloc = "" then none
         else if ["localhost", "127.0.0.1", "0.0.0.0", "::1"].contains
             (hostOfNetloc netloc) then none
         else some url
       else some url) := by
  unfold validate_unsubscribe_url
  rw [if_neg hu, hsn]

theorem validate_unfold_none (nfkc : String → String) (url : String)
    (hu : ¬url = "") (hsn : urlsplit_scheme_netloc nfkc url = none) :
    validate_unsubscribe_url nfkc url = none := by
  unfold validate_unsubscribe_url
  rw [if_neg hu, hsn]

/-- Claim C4: for every NFKC collaborator, `validate_unsubscribe_url`
returns the input unchanged exactly when `urlparse` succeeds (no mismatched
brackets, no rejected bracketed host, no netloc rejected by the NFKC
check), the parsed scheme is http, https or mailto and, for http/https, the
parsed host component (netloc) is non-empty and the host portion (netloc
lower-cased, anything from the first colon on stripped) is none of
localhost, 127.0.0.1, 0.0.0.0, ::1; in every other case — wrong scheme
(javascript:, data:, vbscript: included) or any parse failure — it returns
`none`; and the four spec examples behave as stated. -/
theorem C4_validate_characterization (nfkc : String → String) :
    (∀ url : String,
      validate_unsubscribe_url nfkc url = some url ↔
        ∃ scheme netloc,
          urlsplit_scheme_netloc nfkc url = some (scheme, netloc) ∧
            (scheme = "http" ∨ scheme = "https" ∨ scheme = "mailto") ∧
            (scheme = "http" ∨ scheme = "https" →
              netloc ≠ "" ∧
                hostOfNetloc netloc ≠ "localhost" ∧
                hostOfNetloc netloc ≠ "127.0.0.1" ∧
                hostOfNetloc netloc ≠ "0.0.0.0" ∧
                hostOfNetloc netloc ≠ "::1")) ∧
      (∀ url : String,
        validate_unsubscribe_url nfkc url = none ∨
          validate_unsubscribe_url nfkc url = some url) ∧
      validate_unsubscribe_url nfkc "javascript:alert(1)" = none ∧
      validate_unsubscribe_url nfkc "http://localhost/unsub" = none ∧
      validate_unsubscribe_url nfkc "https://example.com/u"
        = some "https://example.com/u" ∧
      validate_unsubscribe_url nfkc "mailto:x@y.com"
        = some "mailto:x@y.com" := by
  refine ⟨?_, ?_, rfl, rfl, rfl, rfl⟩
  · intro url
    by_cases hempty : url = ""
    · subst hempty
      refine iff_of_false
        (by rw [show validate_unsubscribe_url nfkc "" = none from rfl]
            simp) ?_
      rintro ⟨s, n, hsn, hallow, _⟩
      have h0 : urlsplit_scheme_netloc nfkc "" = some ("", "") := rfl
      rw [h0] at hsn
      obtain ⟨rfl, rfl⟩ : "" = s ∧ "" = n := by
        have heq := Option.some.inj hsn
        exact ⟨congrArg Prod.fst heq, congrArg Prod.snd heq⟩
      rcases hallow with h | h | h <;> exact absurd h.symm (by decide)
    · rcases hsn : urlsplit_scheme_netloc nfkc url with _ | ⟨scheme, netloc⟩
      · refine iff_of_false ?_ ?_
        · rw [validate_unfold_none nfkc url hempty hsn]
          simp
        · rintro ⟨s, n, hcontra, _⟩
          exact Option.noConfusion hcontra
      · rw [validate_unfold nfkc url scheme netloc hempty hsn]
        have hpair : ∀ (P : String → String → Prop),
            (∃ s n, (some (scheme, netloc) : Option (String × String))
                = some (s, n) ∧ P s n) ↔ P scheme netloc := by
          intro P
          constructor
          · rintro ⟨s, n, heq, hp⟩
            obtain ⟨rfl, rfl⟩ : scheme = s ∧ netloc = n := by
              have heq2 := Option.some.inj heq
              exact ⟨congrArg Prod.fst heq2, congrArg Prod.snd heq2⟩
            exact hp
          · intro hp
            exact ⟨scheme, netloc, rfl, hp⟩
        rw [hpair]
        by_cases hA : (["http", "https", "mailto"].contains scheme) = true
        · have hmem : scheme = "http" ∨ scheme = "https" ∨
              scheme = "mailto" := by simpa using hA
          have hdef : (["javascript", "data", "vbscript"].contains
              (pyLower scheme)) = false := by
            rcases hmem with rfl | rfl | rfl <;> decide
          rw [hA, hdef]
          simp only [Bool.not_true, Bool.false_eq_true, if_false]
          by_cases hH : (["http", "https"].contains scheme) = true
          · have hmem2 : scheme = "http" ∨ scheme = "https" := by
              simpa using hH
            rw [hH]
            simp only [if_true]
            by_cases hn : netloc = ""
            · subst hn
              refine iff_of_false (by simp) ?_
              rintro ⟨_, himp⟩
              exact (himp hmem2).1 rfl
            · by_cases hB : (["localhost", "127.0.0.1", "0.0.0.0",
                  "::1"].contains (hostOfNetloc netloc)) = true
              · have hb : hostOfNetloc netloc = "localhost" ∨
                    hostOfNetloc netloc = "127.0.0.1" ∨
                    hostOfNetloc netloc = "0.0.0.0" ∨
                    hostOfNetloc netloc = "::1" := by simpa using hB
                refine iff_of_false ?_ ?_
                · rw [if_neg hn, if_pos hB]
                  simp
                · rintro ⟨_, himp⟩
                  have hc := (himp hmem2).2
                  rcases hb with h | h | h | h
                  exacts [hc.1 h, hc.2.1 h, hc.2.2.1 h, hc.2.2.2 h]
              · have hb : ¬ (hostOfNetloc netloc = "localhost" ∨
                    hostOfNetloc netloc = "127.0.0.1" ∨
                    hostOfNetloc netloc = "0.0.0.0" ∨
                    hostOfNetloc netloc = "::1") := by
                  simpa using hB
                push_neg at hb
                refine iff_of_true ?_ ?_
                · rw [if_neg hn, if_neg hB]
                · exact ⟨hmem, fun _ =>
                    ⟨hn, hb.1, hb.2.1, hb.2.2.1, hb.2.2.2⟩⟩
          · have hsm : scheme = "mailto" := by
              rcases hmem with rfl | rfl | rfl
              · exact absurd (by decide) hH
              · exact absurd (by decide) hH
              · rfl
            refine iff_of_true ?_ ?_
            · simp only [Bool.not_eq_true] at hH
              rw [hH]
              simp
            · refine ⟨hmem, fun hc => absurd hc ?_⟩
              subst hsm
              rintro (h | h) <;> exact absurd h (by decide)
        · have hmem' : ¬ (scheme = "http" ∨ scheme = "https" ∨
              scheme = "mailto") := by simpa using hA
          simp only [Bool.not_eq_true] at hA
          refine iff_of_false ?_ (fun hp => hmem' hp.1)
          rw [hA]
          simp
  · intro url
    by_cases hempty : url = ""
    · left
      subst hempty
      rfl
    · rcases hsn : urlsplit_scheme_netloc nfkc url with _ | ⟨scheme, netloc⟩
      · left
        exact validate_unfold_none nfkc url hempty hsn
      · rw [validate_unfold nfkc url scheme netloc hempty hsn]
        split
        · left; rfl
        · split
          · left; rfl
          · split
            · split
              · left; rfl
              · split
                · left; rfl
                · right; rfl
            · right; rfl

theorem lookupA_singleton {α : Type} (k : String) (v : α) :
    lookupA [(k, v)] k = some v := by
  simp [lookupA]

theorem lookupA_append_of_none {α : Type} (l : List (String × α))
    (k : String) (v : α) (h : lookupA l k = none) :
    lookupA (l ++ [(k, v)]) k = some v := by
  induction l with
  | nil => simp [lookupA]
  | cons p ps ih =>
    by_cases hk : (p.1 == k) = true
    · exfalso
      have hfind : List.find? (fun q => q.1 == k) (p :: ps) = some p :=
        List.find?_cons_of_pos _ hk
      have hsome : lookupA (p :: ps) k = some p.2 := by
        simp only [lookupA, hfind]
        rfl
      rw [h] at hsome
      exact Option.noConfusion hsome
    · have hrest : lookupA ps k = none := by
        have hf := List.find?_cons_of_neg (l := ps)
          (p := fun q => q.1 == k) (a := p) hk
        simpa [lookupA, hf] using h
      have := ih hrest
      have hf2 := List.find?_cons_of_neg (l := ps ++ [(k, v)])
        (p := fun q => q.1 == k) (a := p) hk
      simpa [lookupA, hf2] using this

theorem aggregate_account_unknown (nfkc : String → String)
    (parseaddr : String → String × String)
    (parseDate : String → Option PyDatetime) (now : Int)
    (mgr : GmailAccountManager) (store : AggStore) (account_id : String)
    (max_emails : Option Nat) (query : String)
    (h : lookupA mgr.accounts account_id = none) :
    aggregate_account nfkc parseaddr parseDate now mgr store account_id
        max_emails query
      = (.error ("Account " ++ account_id ++ " not found"), store) := by
  unfold aggregate_account
  rw [h]

theorem aggregate_account_known (nfkc : String → String)
    (parseaddr : String → String × String)
    (parseDate : String → Option PyDatetime) (now : Int)
    (mgr : GmailAccountManager) (store : AggStore) (account_id : String)
    (max_emails : Option Nat) (query : String) (client : GmailClient)
    (h : lookupA mgr.accounts account_id = some client) :
    aggregate_account nfkc parseaddr parseDate now mgr store account_id
        max_emails query
      = (.ok (buildAccountAggregation nfkc parseaddr parseDate now account_id
            client max_emails query),
         setA store account_id (buildAccountAggregation nfkc parseaddr parseDate
            now account_id client max_emails query)) := by
  unfold aggregate_account
  rw [h]

/-- Claim C7: `aggregate_account` fails (raises) exactly when the account id
is unknown to the account manager, and on that failure the shared store is
left unchanged. -/
theorem C7_notfound (nfkc : String → String)
    (parseaddr : String → String × String)
    (parseDate : String → Option PyDatetime) (now : Int)
    (mgr : GmailAccountManager) (store : AggStore) (account_id : String)
    (max_emails : Option Nat) (query : String) :
    ((∃ e, (aggregate_account nfkc parseaddr parseDate now mgr store account_id
        max_emails query).1 = .error e) ↔
      lookupA mgr.accounts account_id = none) ∧
    (lookupA mgr.accounts account_id = none →
      (aggregate_account nfkc parseaddr parseDate now mgr store account_id
        max_emails query).2 = store) := by
  constructor
  · constructor
    · rintro ⟨e, he⟩
      rcases hl : lookupA mgr.accounts account_id with _ | client
      · rfl
      · rw [aggregate_account_known nfkc parseaddr parseDate now mgr store
          account_id max_emails query client hl] at he
        exact Except.noConfusion he
    · intro h
      rw [aggregate_account_unknown nfkc parseaddr parseDate now mgr store
        account_id max_emails query h]
      exact ⟨_, rfl⟩
  · intro h
    rw [aggregate_account_unknown nfkc parseaddr parseDate now mgr store
      account_id max_emails query h]

/-- Witness for C7 at a concrete unknown account: the empty manager and an
empty store. -/
theorem C7_notfound_witness :
    (∃ e, (aggregate_account (fun t => t) (fun _ => ("", "")) (fun _ => none) 0 ⟨[]⟩ []
        "missing" none "").1 = .error e) ∧
      (aggregate_account (fun t => t) (fun _ => ("", "")) (fun _ => none) 0 ⟨[]⟩ []
        "missing" none "").2 = [] := by
  have m := C7_notfound (fun t => t) (fun _ => ("", "")) (fun _ => none) 0 ⟨[]⟩ []
    "missing" none ""
  exact ⟨m.1.mpr rfl, m.2 rfl⟩

theorem processMessage_none (nfkc : String → String)
    (parseaddr : String → String × String)
    (parseDate : String → Option PyDatetime) (now : Int)
    (m : List (String × SenderAggregation)) (mid : String) :
    processMessage nfkc parseaddr parseDate now m mid none = m := rfl

theorem foldl_processMessage_filter (nfkc : String → String)
    (parseaddr : String → String × String)
    (parseDate : String → Option PyDatetime) (now : Int)
    (f : String → Option MsgDetails) (ids : List String) :
    ∀ m, ids.foldl
        (fun m mid => processMessage nfkc parseaddr parseDate now m mid (f mid)) m
      = (ids.filter (fun i => (f i).isSome)).foldl
          (fun m mid => processMessage nfkc parseaddr parseDate now m mid (f mid))
          m := by
  induction ids with
  | nil => intro m; rfl
  | cons i is ih =>
    intro m
    cases hd : f i with
    | none =>
      rw [List.foldl_cons,
        show processMessage nfkc parseaddr parseDate now m i (f i) = m by
          rw [hd]
          exact processMessage_none nfkc parseaddr parseDate now m i,
        ih,
        show (i :: is).filter (fun x => (f x).isSome)
            = is.filter (fun x => (f x).isSome) by
          simp [List.filter_cons, hd]]
    | some d =>
      rw [List.foldl_cons, ih,
        show (i :: is).filter (fun x => (f x).isSome)
            = i :: is.filter (fun x => (f x).isSome) by
          simp [List.filter_cons, hd],
        List.foldl_cons]

theorem add_email_count (s : SenderAggregation) (e : EmailInfo) :
    (s.add_email e).count = s.count + 1 := rfl

theorem mkSenderAggregation_count (email name domain : String) :
    (mkSenderAggregation email name domain).count = 0 := rfl

theorem sumBy_count_processStep (m : List (String × SenderAggregation))
    (email name domain : String) (info : EmailInfo) :
    sumBy (fun p => p.2.count)
        (updateA
          (if (lookupA m email).isSome then m
           else m ++ [(email, mkSenderAggregation email name domain)])
          email (fun s => s.add_email info))
      = sumBy (fun p => p.2.count) m + 1 := by
  by_cases hmem : (lookupA m email).isSome = true
  · obtain ⟨v, hv⟩ := Option.isSome_iff_exists.mp hmem
    rw [if_pos hmem]
    have key := sumBy_updateA (fun s => s.count) m email
      (fun s => s.add_email info) v hv
    simp only [add_email_count] at key
    omega
  · simp only [Bool.not_eq_true] at hmem
    rw [if_neg (by rw [hmem]; exact Bool.false_ne_true)]
    have hnone : lookupA m email = none := by
      rcases h : lookupA m email with _ | v
      · rfl
      · rw [h] at hmem; simp at hmem
    have hv := lookupA_append_of_none m email
      (mkSenderAggregation email name domain) hnone
    have key := sumBy_updateA (fun s => s.count)
      (m ++ [(email, mkSenderAggregation email name domain)]) email
      (fun s => s.add_email info) (mkSenderAggregation email name domain) hv
    simp only [add_email_count, mkSenderAggregation_count] at key
    have happ := sumBy_append (fun p => p.2.count) m
      [(email, mkSenderAggregation email name domain)]
    simp only [sumBy_cons, sumBy_nil, mkSenderAggregation_count] at happ
    omega

theorem sumBy_count_processMessage (nfkc : String → String)
    (parseaddr : String → String × String)
    (parseDate : String → Option PyDatetime) (now : Int)
    (m : List (String × SenderAggregation)) (mid : String)
    (det : Option MsgDetails) :
    sumBy (fun p => p.2.count)
        (processMessage nfkc parseaddr parseDate now m mid det)
      = sumBy (fun p => p.2.count) m + (if det.isSome then 1 else 0) := by
  cases det with
  | none => rfl
  | some d =>
    simp only [processMessage, _process_message_details, Option.isSome_some,
      if_true]
    exact sumBy_count_processStep m _ _ _ _

theorem sumBy_count_fold (nfkc : String → String)
    (parseaddr : String → String × String)
    (parseDate : String → Option PyDatetime) (now : Int)
    (f : String → Option MsgDetails) (ids : List String) :
    ∀ m, sumBy (fun p => p.2.count)
        (ids.foldl
          (fun m mid => processMessage nfkc parseaddr parseDate now m mid (f mid))
          m)
      = sumBy (fun p => p.2.count) m
          + (ids.filter (fun i => (f i).isSome)).length := by
  induction ids with
  | nil => intro m; simp
  | cons i is ih =>
    intro m
    rw [List.foldl_cons, ih, sumBy_count_processMessage]
    cases hd : f i with
    | none => simp [List.filter_cons, hd]
    | some d =>
      simp [List.filter_cons, hd]
      omega

theorem built_total_emails (sd : List (String × SenderAggregation)) :
    ∀ (acc : AccountAggregation × List (String × DomainAggregation)),
      (sd.foldl foldSenderIntoAccount acc).1.total_emails
        = acc.1.total_emails + sumBy (fun p => p.2.count) sd := by
  induction sd with
  | nil => intro acc; simp [sumBy]
  | cons e es ih =>
    intro acc
    rw [List.foldl_cons, ih]
    simp only [foldSenderIntoAccount, sumBy_cons]
    omega

theorem buildAgg_total_emails (nfkc : String → String)
    (parseaddr : String → String × String)
    (parseDate : String → Option PyDatetime) (now : Int)
    (account_id : String) (client : GmailClient) (max_emails : Option Nat)
    (query : String) :
    (buildAccountAggregation nfkc parseaddr parseDate now account_id client
        max_emails query).total_emails
      = ((client.get_messages max_emails query).filter
          (fun i => (client.fetchDetail i).isSome)).length := by
  unfold buildAccountAggregation
  simp only [built_total_emails, sumBy_count_fold, sumBy_nil]
  omega

/-- Claim C5: message ids whose fetched details are the empty placeholder
are silently skipped — aggregating with a client is the same as aggregating
with the client that lists only the successfully fetched ids, no error is
raised, and `total_emails` is exactly the number of successfully fetched
messages. -/
theorem C5_skip_failed_fetch (nfkc : String → String)
    (parseaddr : String → String × String)
    (parseDate : String → Option PyDatetime) (now : Int)
    (account_id : String) (client : GmailClient) (store : AggStore)
    (max_emails : Option Nat) (query : String) :
    aggregate_account nfkc parseaddr parseDate now ⟨[(account_id, client)]⟩ store
        account_id max_emails query
      = aggregate_account nfkc parseaddr parseDate now
          ⟨[(account_id,
            { client with
              get_messages := fun mr qq =>
                (client.get_messages mr qq).filter
                  (fun i => (client.fetchDetail i).isSome) })]⟩ store
          account_id max_emails query ∧
    ∃ agg,
      (aggregate_account nfkc parseaddr parseDate now ⟨[(account_id, client)]⟩
        store account_id max_emails query).1 = .ok agg ∧
      agg.total_emails
        = ((client.get_messages max_emails query).filter
            (fun i => (client.fetchDetail i).isSome)).length := by
  have hfilter : buildAccountAggregation nfkc parseaddr parseDate now account_id
      client max_emails query
    = buildAccountAggregation nfkc parseaddr parseDate now account_id
        { client with
          get_messages := fun mr qq =>
            (client.get_messages mr qq).filter
              (fun i => (client.fetchDetail i).isSome) } max_emails query := by
    unfold buildAccountAggregation
    dsimp only
    rw [foldl_processMessage_filter]
  constructor
  · rw [aggregate_account_known nfkc parseaddr parseDate now _ store account_id
        max_emails query client (lookupA_singleton account_id client),
      aggregate_account_known nfkc parseaddr parseDate now _ store account_id
        max_emails query _ (lookupA_singleton account_id _),
      hfilter]
  · refine ⟨buildAccountAggregation nfkc parseaddr parseDate now account_id
      client max_emails query, ?_,
      buildAgg_total_emails nfkc parseaddr parseDate now account_id client
        max_emails query⟩
    rw [aggregate_account_known nfkc parseaddr parseDate now _ store account_id
      max_emails query client (lookupA_singleton account_id client)]

theorem foldl_append_ids (l : List (String × SenderAggregation)) :
    ∀ acc : List String,
      l.foldl (fun ids p => ids ++ p.2.emails.map (·.message_id)) acc
        = acc ++ l.flatMap (fun p => p.2.emails.map (·.message_id)) := by
  induction l with
  | nil => intro acc; simp
  | cons p ps ih =>
    intro acc
    rw [List.foldl_cons, ih]
    simp [List.flatMap_cons, List.append_assoc]

/-- Claim C9: `get_message_ids_for_sender` returns the sender's stored
message ids in order and `get_message_ids_for_domain` the concatenation
over the domain's member senders (both matching their spec-side
descriptions), and both return the empty list — without raising — when the
account (or the sender/domain) is unknown. -/
theorem C9_message_id_lookups (store : AggStore)
    (account_id sender_email domain : String) :
    get_message_ids_for_sender store account_id sender_email
        = specSenderIds store account_id sender_email ∧
      get_message_ids_for_domain store account_id domain
        = specDomainIds store account_id domain ∧
      (lookupA store account_id = none →
        get_message_ids_for_sender store account_id sender_email = [] ∧
          get_message_ids_for_domain store account_id domain = []) := by
  refine ⟨?_, ?_, ?_⟩
  · unfold get_message_ids_for_sender specSenderIds
    rcases h1 : lookupA store account_id with _ | agg
    · rfl
    · rcases h2 : lookupA agg.senders sender_email with _ | s <;>
        simp [h2]
  · unfold get_message_ids_for_domain specDomainIds
    rcases h1 : lookupA store account_id with _ | agg
    · rfl
    · rcases h2 : lookupA agg.domains domain with _ | d <;>
        simp [h2, foldl_append_ids]
  · intro h
    constructor <;>
      simp [get_message_ids_for_sender, get_message_ids_for_domain, h]

/-- Witness for C9 at a concrete unknown account (the empty store). -/
theorem C9_message_id_lookups_witness :
    get_message_ids_for_sender [] "acct" "x@y.com" = [] ∧
      get_message_ids_for_domain [] "acct" "y.com" = [] :=
  (C9_message_id_lookups [] "acct" "x@y.com" "y.com").2.2 rfl

theorem insertDesc_perm {α : Type} (key : α → Nat) (x : α) (l : List α) :
    (insertDesc key x l).Perm (x :: l) := by
  induction l with
  | nil => exact List.Perm.refl _
  | cons y ys ih =>
    by_cases h : key y ≤ key x
    · simp only [insertDesc, if_pos h]
      exact List.Perm.refl _
    · simp only [insertDesc, if_neg h]
      exact (ih.cons y).trans (List.Perm.swap x y ys)

theorem sortDesc_perm {α : Type} (key : α → Nat) (l : List α) :
    (sortDesc key l).Perm l := by
  induction l with
  | nil => exact List.Perm.refl _
  | cons x xs ih =>
    exact (insertDesc_perm key x (sortDesc key xs)).trans (ih.cons x)

theorem insertDesc_sorted {α : Type} (key : α → Nat) (x : α) (l : List α)
    (h : l.Pairwise (fun a b => key b ≤ key a)) :
    (insertDesc key x l).Pairwise (fun a b => key b ≤ key a) := by
  induction l with
  | nil => simp [insertDesc]
  | cons y ys ih =>
    rcases List.pairwise_cons.mp h with ⟨hy, hys⟩
    by_cases hk : key y ≤ key x
    · simp only [insertDesc, if_pos hk]
      refine List.Pairwise.cons ?_ h
      intro b hb
      rcases List.mem_cons.mp hb with rfl | hb2
      · exact hk
      · exact le_trans (hy b hb2) hk
    · simp only [insertDesc, if_neg hk]
      refine List.Pairwise.cons ?_ (ih hys)
      intro b hb
      have hb' : b = x ∨ b ∈ ys := by
        have hmem := (insertDesc_perm key x ys).mem_iff.mp hb
        simpa using hmem
      rcases hb' with rfl | hb2
      · omega
      · exact hy b hb2

theorem sortDesc_sorted {α : Type} (key : α → Nat) (l : List α) :
    (sortDesc key l).Pairwise (fun a b => key b ≤ key a) := by
  induction l with
  | nil => simp [sortDesc]
  | cons x xs ih => exact insertDesc_sorted key x (sortDesc key xs) ih

theorem filter_insertDesc_of_ne {α : Type} (key : α → Nat) (c : Nat)
    (x : α) (l : List α) (hx : (key x == c) = false) :
    (insertDesc key x l).filter (fun a => key a == c)
      = l.filter (fun a => key a == c) := by
  induction l with
  | nil => simp [insertDesc, List.filter_cons, hx]
  | cons y ys ih =>
    by_cases hk : key y ≤ key x
    · simp [insertDesc, if_pos hk, List.filter_cons, hx]
    · simp [insertDesc, if_neg hk, List.filter_cons, ih]

theorem filter_insertDesc_of_eq {α : Type} (key : α → Nat) (c : Nat)
    (x : α) (l : List α) (hx : (key x == c) = true) :
    (insertDesc key x l).filter (fun a => key a == c)
      = x :: l.filter (fun a => key a == c) := by
  induction l with
  | nil => simp [insertDesc, List.filter_cons, hx]
  | cons y ys ih =>
    by_cases hk : key y ≤ key x
    · simp [insertDesc, if_pos hk, List.filter_cons, hx]
    · have hxc : key x = c := by simpa using hx
      have hyc : (key y == c) = false := by
        have : key y ≠ c := by omega
        simp [this]
      simp [insertDesc, if_neg hk, List.filter_cons, hyc, ih]

theorem sortDesc_filter {α : Type} (key : α → Nat) (c : Nat) (l : List α) :
    (sortDesc key l).filter (fun a => key a == c)
      = l.filter (fun a => key a == c) := by
  induction l with
  | nil => rfl
  | cons x xs ih =>
    have hstep : sortDesc key (x :: xs) = insertDesc key x (sortDesc key xs) :=
      rfl
    by_cases hx : (key x == c) = true
    · rw [hstep, filter_insertDesc_of_eq key c x _ hx, ih]
      simp [List.filter_cons, hx]
    · have hx' : (key x == c) = false := by
        rcases hb : key x == c
        · rfl
        · exact absurd hb hx
      rw [hstep, filter_insertDesc_of_ne key c x _ hx', ih]
      simp [List.filter_cons, hx']

theorem filter_take_append {α : Type} (p : α → Bool) (l : List α) (n : Nat) :
    l.filter p = (l.take n).filter p ++ (l.drop n).filter p := by
  rw [← List.filter_append, List.take_append_drop]

/-- Claim C6: `get_top_senders` and `get_top_domains` return the flattened
`(account_id, aggregate)` pairs stably sorted descending by `count`
(respectively `total_count`) and truncated to at most `limit` entries: the
result is a truncation of a permutation of the flattened list, pairwise
descending, and for every count value the retained entries of that count
form a prefix of the flattened list's entries of that count (original
encounter order preserved among equal counts). -/
theorem C6_top_queries_sorted (store : AggStore)
    (account_id : Option String) (limit : Nat) :
    ((get_top_senders store account_id limit).length ≤ limit ∧
      (get_top_senders store account_id limit).Pairwise
        (fun a b => b.2.count ≤ a.2.count) ∧
      (sortDesc (fun r => r.2.count)
        (flattenSenders store account_id)).Perm
        (flattenSenders store account_id) ∧
      get_top_senders store account_id limit
        = (sortDesc (fun r => r.2.count)
            (flattenSenders store account_id)).take limit ∧
      (∀ c : Nat, ∃ rest,
        (flattenSenders store account_id).filter (fun r => r.2.count == c)
          = (get_top_senders store account_id limit).filter
              (fun r => r.2.count == c) ++ rest)) ∧
    ((get_top_domains store account_id limit).length ≤ limit ∧
      (get_top_domains store account_id limit).Pairwise
        (fun a b => b.2.total_count ≤ a.2.total_count) ∧
      (sortDesc (fun r => r.2.total_count)
        (flattenDomains store account_id)).Perm
        (flattenDomains store account_id) ∧
      get_top_domains store account_id limit
        = (sortDesc (fun r => r.2.total_count)
            (flattenDomains store account_id)).take limit ∧
      (∀ c : Nat, ∃ rest,
        (flattenDomains store account_id).filter
            (fun r => r.2.total_count == c)
          = (get_top_domains store account_id limit).filter
              (fun r => r.2.total_count == c) ++ rest)) := by
  constructor
  · refine ⟨List.length_take_le limit _, ?_, sortDesc_perm _ _, rfl, ?_⟩
    · exact (sortDesc_sorted (fun r => r.2.count)
        (flattenSenders store account_id)).sublist (List.take_sublist _ _)
    · intro c
      refine ⟨((sortDesc (fun r => r.2.count)
        (flattenSenders store account_id)).drop limit).filter
          (fun r => r.2.count == c), ?_⟩
      rw [← sortDesc_filter (fun r => r.2.count) c
        (flattenSenders store account_id)]
      simp only [get_top_senders]
      exact filter_take_append _ _ limit
  · refine ⟨List.length_take_le limit _, ?_, sortDesc_perm _ _, rfl, ?_⟩
    · exact (sortDesc_sorted (fun r => r.2.total_count)
        (flattenDomains store account_id)).sublist (List.take_sublist _ _)
    · intro c
      refine ⟨((sortDesc (fun r => r.2.total_count)
        (flattenDomains store account_id)).drop limit).filter
          (fun r => r.2.total_count == c), ?_⟩
      rw [← sortDesc_filter (fun r => r.2.total_count) c
        (flattenDomains store account_id)]
      simp only [get_top_domains]
      exact filter_take_append _ _ limit
